import Mathlib

/-!
Verification of the in-memory document store in src/backend/database.py
(class InMemoryCollection and the helpers _get_nested_value and
_matches_query).

The embedding models Python values that can occur in stored documents as
the inductive type Value: None, int, str, list, and dict with string keys
(a document).  Python dicts are modelled as association lists in insertion
order, which is exactly the iteration order Python guarantees; keys are
unique in every dict the program builds.  A Python exception (TypeError /
AttributeError / KeyError) is modelled as the value none of an Option
result type.
-/

namespace MemDB

/-- A Python value as stored in documents: None, an int, a str, a list, or
a dict with string keys. -/
inductive Value where
  | null
  | int (n : Int)
  | str (s : String)
  | list (items : List Value)
  | doc (fields : List (String × Value))

/-- A Python dict with string keys, as an association list in insertion
order. -/
abbrev Doc := List (String × Value)

mutual

/-- Boolean equality for values, mirroring Python structural equality
on None / int / str / list / dict values. -/
def Value.beq : Value → Value → Bool
  | .null, .null => true
  | .int a, .int b => a == b
  | .str a, .str b => a == b
  | .list as, .list bs => Value.beqList as bs
  | .doc as, .doc bs => Value.beqFields as bs
  | _, _ => false

/-- Boolean equality for lists of values. -/
def Value.beqList : List Value → List Value → Bool
  | [], [] => true
  | a :: as, b :: bs => Value.beq a b && Value.beqList as bs
  | _, _ => false

/-- Boolean equality for dict field lists. -/
def Value.beqFields : List (String × Value) → List (String × Value) → Bool
  | [], [] => true
  | (k, a) :: as, (l, b) :: bs => k == l && Value.beq a b && Value.beqFields as bs
  | _, _ => false

end

mutual

theorem Value.eq_of_beq : (a b : Value) → Value.beq a b = true → a = b
  | .null, .null, _ => rfl
  | .null, .int _, h => by simp [Value.beq] at h
  | .null, .str _, h => by simp [Value.beq] at h
  | .null, .list _, h => by simp [Value.beq] at h
  | .null, .doc _, h => by simp [Value.beq] at h
  | .int _, .null, h => by simp [Value.beq] at h
  | .int a, .int b, h => by
    simp only [Value.beq, beq_iff_eq] at h
    rw [h]
  | .int _, .str _, h => by simp [Value.beq] at h
  | .int _, .list _, h => by simp [Value.beq] at h
  | .int _, .doc _, h => by simp [Value.beq] at h
  | .str _, .null, h => by simp [Value.beq] at h
  | .str _, .int _, h => by simp [Value.beq] at h
  | .str a, .str b, h => by
    simp only [Value.beq, beq_iff_eq] at h
    rw [h]
  | .str _, .list _, h => by simp [Value.beq] at h
  | .str _, .doc _, h => by simp [Value.beq] at h
  | .list _, .null, h => by simp [Value.beq] at h
  | .list _, .int _, h => by simp [Value.beq] at h
  | .list _, .str _, h => by simp [Value.beq] at h
  | .list as, .list bs, h => by
    simp only [Value.beq] at h
    rw [Value.eqList_of_beqList as bs h]
  | .list _, .doc _, h => by simp [Value.beq] at h
  | .doc _, .null, h => by simp [Value.beq] at h
  | .doc _, .int _, h => by simp [Value.beq] at h
  | .doc _, .str _, h => by simp [Value.beq] at h
  | .doc _, .list _, h => by simp [Value.beq] at h
  | .doc as, .doc bs, h => by
    simp only [Value.beq] at h
    rw [Value.eqFields_of_beqFields as bs h]

theorem Value.eqList_of_beqList : (as bs : List Value) → Value.beqList as bs = true → as = bs
  | [], [], _ => rfl
  | [], _ :: _, h => by simp [Value.beqList] at h
  | _ :: _, [], h => by simp [Value.beqList] at h
  | a :: as, b :: bs, h => by
    simp only [Value.beqList, Bool.and_eq_true] at h
    rw [Value.eq_of_beq a b h.1, Value.eqList_of_beqList as bs h.2]

theorem Value.eqFields_of_beqFields :
    (as bs : List (String × Value)) → Value.beqFields as bs = true → as = bs
  | [], [], _ => rfl
  | [], _ :: _, h => by simp [Value.beqFields] at h
  | _ :: _, [], h => by simp [Value.beqFields] at h
  | (k, a) :: as, (l, b) :: bs, h => by
    simp only [Value.beqFields, Bool.and_eq_true, beq_iff_eq] at h
    rw [h.1.1, Value.eq_of_beq a b h.1.2, Value.eqFields_of_beqFields as bs h.2]

end

mutual

theorem Value.beq_refl : (a : Value) → Value.beq a a = true
  | .null => rfl
  | .int _ => by simp [Value.beq]
  | .str _ => by simp [Value.beq]
  | .list as => by simp only [Value.beq]; exact Value.beqList_refl as
  | .doc as => by simp only [Value.beq]; exact Value.beqFields_refl as

theorem Value.beqList_refl : (as : List Value) → Value.beqList as as = true
  | [] => rfl
  | a :: as => by
    simp only [Value.beqList, Bool.and_eq_true]
    exact ⟨Value.beq_refl a, Value.beqList_refl as⟩

theorem Value.beqFields_refl : (as : List (String × Value)) → Value.beqFields as as = true
  | [] => rfl
  | (k, a) :: as => by
    simp only [Value.beqFields, Bool.and_eq_true]
    exact ⟨⟨beq_self_eq_true k, Value.beq_refl a⟩, Value.beqFields_refl as⟩

end

instance : DecidableEq Value := fun a b =>
  decidable_of_iff (Value.beq a b = true)
    ⟨Value.eq_of_beq a b, fun h => h ▸ Value.beq_refl a⟩

/-- Models Python `dotted_key.split(".")`: split a string at every dot,
keeping empty segments. -/
def splitDotAux : List Char → List Char → List String
  | [], acc => [String.mk acc.reverse]
  | c :: rest, acc =>
    if c = '.' then String.mk acc.reverse :: splitDotAux rest []
    else splitDotAux rest (c :: acc)

/-- Split a dotted path into its segments, as `str.split(".")` does. -/
def splitDot (s : String) : List String := splitDotAux s.data []

/-- The descent loop of `_get_nested_value`: walk the path segments through
nested dicts; `none` is the case in which the Python loop hits
`not isinstance(value, dict) or part not in value` and returns early. -/
def goResolve : Value → List String → Option Value
  | v, [] => some v
  | .doc fields, part :: rest =>
    match fields.lookup part with
    | some w => goResolve w rest
    | none => none
  | _, _ :: _ => none

/-- `_get_nested_value(document, dotted_key)`: resolve a dotted path against
a document.  The Python function returns the Python value `None` when the
path does not resolve, which is the same value as a stored explicit
`None`; the embedding mirrors this by collapsing the failure case of
`goResolve` to `Value.null`. -/
def _get_nested_value (document : Doc) (dotted_key : String) : Value :=
  (goResolve (.doc document) (splitDot dotted_key)).getD .null

/-- Python truthiness (`bool(v)`) for the modelled values. -/
def pyTruthy : Value → Bool
  | .null => false
  | .int n => n != 0
  | .str s => s != ""
  | .list items => !items.isEmpty
  | .doc fields => !fields.isEmpty

/-- Whether a value is hashable in Python (usable as a set element or dict
key): None, ints and strs are, lists and dicts are not. -/
def pyHashable : Value → Bool
  | .null => true
  | .int _ => true
  | .str _ => true
  | .list _ => false
  | .doc _ => false

/-- Strict lexicographic comparison of character lists by code point:
Python string `<`. -/
def charsLt : List Char → List Char → Bool
  | [], [] => false
  | [], _ :: _ => true
  | _ :: _, [] => false
  | a :: as, b :: bs => if a = b then charsLt as bs else decide (a < b)

/-- Non-strict lexicographic comparison of character lists by code point:
Python string `<=`. -/
def charsLe : List Char → List Char → Bool
  | [], _ => true
  | _ :: _, [] => false
  | a :: as, b :: bs => if a = b then charsLe as bs else decide (a < b)

/-- Python string `a <= b` (lexicographic by code point). -/
def strLe (a b : String) : Bool := charsLe a.data b.data

mutual

/-- Python `a < b` on the modelled values: defined for int/int, str/str and
list/list (lexicographic, comparing elements with `==` first and `<` at
the first difference); every other combination raises TypeError,
modelled as `none`. -/
def pyLt : Value → Value → Option Bool
  | .int a, .int b => some (decide (a < b))
  | .str a, .str b => some (charsLt a.data b.data)
  | .list as, .list bs => pyLtList as bs
  | _, _ => none

/-- Python list comparison `as < bs`: skip equal heads, compare the first
differing pair with `<`, and compare lengths when one list is a prefix of
the other. -/
def pyLtList : List Value → List Value → Option Bool
  | [], [] => some false
  | [], _ :: _ => some true
  | _ :: _, [] => some false
  | a :: as, b :: bs => if a = b then pyLtList as bs else pyLt a b

end

/-- Python iteration `for x in v`: lists yield their elements, strs their
characters (as one-character strs), dicts their keys; ints and None are
not iterable (TypeError, modelled as `none`). -/
def pyIter : Value → Option (List Value)
  | .list items => some items
  | .str s => some (s.data.map (fun c => Value.str (String.mk [c])))
  | .doc fields => some (fields.map (fun kv => Value.str kv.1))
  | _ => none

/-- Whether the character list `pat` is an initial segment of `cs`. -/
def charsStartWith : List Char → List Char → Bool
  | [], _ => true
  | _ :: _, [] => false
  | p :: ps, c :: cs => p == c && charsStartWith ps cs

/-- Whether the character list `pat` occurs contiguously inside `cs`
(Python substring containment). -/
def charsContain (pat : List Char) : List Char → Bool
  | [] => pat.isEmpty
  | c :: cs => charsStartWith pat (c :: cs) || charsContain pat cs

/-- Python membership `x in container`: list membership by equality, str
membership as substring of str (TypeError when the left operand is not a
str), dict membership as key lookup (TypeError when the left operand is
unhashable); ints and None are not containers (TypeError). -/
def pyIn (x container : Value) : Option Bool :=
  match container with
  | .list ys => some (ys.any (fun y => decide (x = y)))
  | .str s =>
    match x with
    | .str t => some (charsContain t.data s.data)
    | _ => none
  | .doc fields =>
    if pyHashable x then
      match x with
      | .str t => some (fields.any (fun kv => kv.1 == t))
      | _ => some false
    else none
  | _ => none

/-- The `$in` branch of `_matches_query`: when the resolved value is a
list, test `any(item in actual for item in candidate_values)`; otherwise
test `actual in candidate_values`. -/
def inMatches (actual cand : Value) : Option Bool :=
  match actual with
  | .list xs =>
    match pyIter cand with
    | none => none
    | some items => some (items.any (fun item => xs.any (fun a => decide (a = item))))
  | _ => pyIn actual cand

/-- The `$gte` failure test of `_matches_query`:
`actual is None or actual < bound`, with Python short-circuit (the
comparison is not evaluated when `actual` is None). -/
def gteFails (actual bound : Value) : Option Bool :=
  if actual = Value.null then some true else pyLt actual bound

/-- The `$lte` failure test of `_matches_query`:
`actual is None or actual > bound`, where `a > b` is evaluated as
`b < a`. -/
def lteFails (actual bound : Value) : Option Bool :=
  if actual = Value.null then some true else pyLt bound actual

/-- One field constraint of `_matches_query`, for the field `key` of the
query: resolve `actual`, then either apply the recognized operators of an
operator dict (`$in`, `$gte`, `$lte`, in that order, each skipped when its
key is missing) or compare with the literal by equality. -/
def matchesConstraint (document : Doc) (key : String) (expected : Value) : Option Bool :=
  let actual := _get_nested_value document key
  match expected with
  | .doc ops =>
    match (match ops.lookup "$in" with
           | none => some true
           | some cand => inMatches actual cand) with
    | none => none
    | some false => some false
    | some true =>
      match (match ops.lookup "$gte" with
             | none => some false
             | some bound => gteFails actual bound) with
      | none => none
      | some true => some false
      | some false =>
        match (match ops.lookup "$lte" with
               | none => some false
               | some bound => lteFails actual bound) with
        | none => none
        | some true => some false
        | some false => some true
  | lit => some (decide (_get_nested_value document key = lit))

/-- `_matches_query(document, query)`: every field constraint must hold;
the empty query matches everything.  Constraints are evaluated in query
order with Python short-circuit: a failing constraint returns before
later constraints can raise. -/
def _matches_query (document : Doc) (query : Doc) : Option Bool :=
  match query with
  | [] => some true
  | (key, expected) :: rest =>
    match matchesConstraint document key expected with
    | none => none
    | some false => some false
    | some true => _matches_query document rest

example : _matches_query [] [("a", Value.null)] = some true := by decide

example :
    _matches_query [("max_participants", Value.int 18)]
      [("max_participants", Value.doc [("$gte", Value.int 15), ("$lte", Value.int 20)])] =
      some true := by decide

example :
    _matches_query [("max_participants", Value.int 12)]
      [("max_participants", Value.doc [("$gte", Value.int 15), ("$lte", Value.int 20)])] =
      some false := by decide

example :
    _matches_query [("max_participants", Value.str "many")]
      [("max_participants", Value.doc [("$gte", Value.int 15)])] = none := by decide

example :
    _matches_query
      [("schedule_details", Value.doc [("days", Value.list [Value.str "Monday", Value.str "Friday"])])]
      [("schedule_details.days", Value.doc [("$in", Value.list [Value.str "Monday"])])] =
      some true := by decide

example :
    _matches_query
      [("schedule_details", Value.doc [("days", Value.list [Value.str "Tuesday"])])]
      [("schedule_details.days", Value.doc [("$in", Value.list [Value.str "Monday"])])] =
      some false := by decide

/-- The result object returned by `update_one`. -/
structure InMemoryResult where
  modified_count : Nat
deriving DecidableEq

/-- The store of an `InMemoryCollection`: the dict `self._documents`
mapping identifier value to document, as an association list in insertion
order (Python dict iteration order). -/
abbrev Collection := List (Value × Doc)

/-- `count_documents(query)`: the number of stored documents matching the
query, scanning in store order; a match error aborts the count. -/
def count_documents : Collection → Doc → Option Nat
  | [], _ => some 0
  | (_, document) :: rest, query =>
    match _matches_query document query with
    | none => none
    | some b =>
      match count_documents rest query with
      | none => none
      | some n => some (if b then n + 1 else n)

/-- Python dict assignment `store[i] = d`: replace the value of an
existing key in place (keeping its position), or append a new key at the
end. -/
def dictSet : Collection → Value → Doc → Collection
  | [], i, d => [(i, d)]
  | (k, e) :: rest, i, d => if k = i then (k, d) :: rest else (k, e) :: dictSet rest i d

/-- `insert_one(document)`: store a deep copy of the document under
`document["_id"]`.  A document without an `"_id"` field raises KeyError
and an unhashable identifier raises TypeError, both modelled as `none`;
deep copying is the identity on immutable modelled values. -/
def insert_one (c : Collection) (document : Doc) : Option Collection :=
  match document.lookup "_id" with
  | none => none
  | some i => if pyHashable i then some (dictSet c i document) else none

/-- `find(query)`: the documents matching the query, in store order (the
generator fully evaluated; each yielded document is a deep copy, which is
the identity here). -/
def find : Collection → Doc → Option (List Doc)
  | [], _ => some []
  | (_, document) :: rest, query =>
    match _matches_query document query with
    | none => none
    | some b =>
      match find rest query with
      | none => none
      | some tail => some (if b then document :: tail else tail)

/-- `find_one(query)`: the first matching document in store order, or
`none` (Python None) when nothing matches. -/
def find_one : Collection → Doc → Option (Option Doc)
  | [], _ => some none
  | (_, document) :: rest, query =>
    match _matches_query document query with
    | none => none
    | some true => some (some document)
    | some false => find_one rest query

/-- The collection loop of `aggregate`: for every document, take
`_get_nested_value(document, "schedule_details.days") or []` and iterate
it, adding every element to the set `days`.  Iterating a truthy
non-iterable value raises TypeError, and adding an unhashable element
raises TypeError; both are modelled as `none`.  The elements are returned
in encounter order, before deduplication. -/
def collectDays : Collection → Option (List Value)
  | [] => some []
  | (_, document) :: rest =>
    let v := _get_nested_value document "schedule_details.days"
    let vv := if pyTruthy v then v else Value.list []
    match pyIter vv with
    | none => none
    | some items =>
      if items.all pyHashable then
        match collectDays rest with
        | none => none
        | some tail => some (items ++ tail)
      else none

/-- Extract an int payload. -/
def getIntV : Value → Option Int
  | .int n => some n
  | _ => none

/-- Extract a str payload. -/
def getStrV : Value → Option String
  | .str s => some s
  | _ => none

/-- Models Python `sorted(days)` where `days` is a set of hashable values
(None / int / str after `collectDays`): deduplicate, then sort ascending.
A set with at most one element involves no comparison; otherwise sorting
compares elements, which succeeds exactly when all elements are ints or
all are strs, and raises TypeError (modelled as `none`) when the set
mixes incomparable values (None compares with nothing, ints and strs do
not compare with each other). -/
def pySortedSet (xs : List Value) : Option (List Value) :=
  let ds := xs.dedup
  if ds.length ≤ 1 then some ds
  else if ds.all (fun v => (getIntV v).isSome) then
    some ((List.insertionSort (· ≤ ·) (ds.filterMap getIntV)).map Value.int)
  else if ds.all (fun v => (getStrV v).isSome) then
    some ((List.insertionSort (fun a b => strLe a b = true) (ds.filterMap getStrV)).map Value.str)
  else none

/-- `aggregate(pipeline)`: the pipeline argument is ignored; collect every
element of every document's `schedule_details.days`, deduplicate, sort
ascending and yield one record `{"_id": day}` per distinct value. -/
def aggregate (pipeline : List Doc) (c : Collection) : Option (List Doc) :=
  match collectDays c with
  | none => none
  | some vals =>
    match pySortedSet vals with
    | none => none
    | some sortedVals => some (sortedVals.map (fun v => [("_id", v)]))

/-- Replace the value of the first field named `p` (Python dict update of
an existing key), leaving a dict without that key unchanged. -/
def replaceFirst : List (String × Value) → String → Value → List (String × Value)
  | [], _, _ => []
  | (k, x) :: rest, p, w => if k = p then (k, w) :: rest else (k, x) :: replaceFirst rest p w

/-- The list-mutation core of `update_one`: resolve a path exactly as
`_get_nested_value` does and, when the resolved value is a list, replace
it by `(f xs).1` and report `(f xs).2`; when the path does not resolve to
a list, leave the value unchanged and report 0.  This models the Python
in-place mutation of the list object reached through nested dicts. -/
def goModify : Value → List String → (List Value → List Value × Nat) → Value × Nat
  | .list xs, [], f => (.list (f xs).1, (f xs).2)
  | v, [], _ => (v, 0)
  | .doc fields, p :: rest, f =>
    match fields.lookup p with
    | some w => ((Value.doc (replaceFirst fields p (goModify w rest f).1)), (goModify w rest f).2)
    | none => (.doc fields, 0)
  | v, _ :: _, _ => (v, 0)

/-- Apply a list mutation at a dotted path of a document. -/
def applyListOp (d : Doc) (field : String) (f : List Value → List Value × Nat) : Doc × Nat :=
  match goModify (.doc d) (splitDot field) f with
  | (.doc d2, m) => (d2, m)
  | (_, m) => (d, m)

/-- The `$push` pair action: `values.append(value)` and `modified = 1`. -/
def pushFun (v : Value) (xs : List Value) : List Value × Nat := (xs ++ [v], 1)

/-- The `$pull` pair action: when `value in values`, remove the first
occurrence (`values.remove(value)`) and set `modified = 1`; otherwise do
nothing. -/
def pullFun (v : Value) (xs : List Value) : List Value × Nat :=
  if xs.contains v then (xs.erase v, 1) else (xs, 0)

/-- Process the `(field, value)` pairs of one update operator in order on
the matched document, accumulating the sticky `modified` flag. -/
def applyPairs (d : Doc) (pairs : List (String × Value)) (f : Value → List Value → List Value × Nat) :
    Doc × Nat :=
  match pairs with
  | [] => (d, 0)
  | (field, v) :: rest =>
    ((applyPairs (applyListOp d field (f v)).1 rest f).1,
      max (applyListOp d field (f v)).2 (applyPairs (applyListOp d field (f v)).1 rest f).2)

/-- The body of `update_one` applied to the matched document: the `$push`
pairs, then the `$pull` pairs (a non-dict operator operand raises
AttributeError on `.items()`, modelled as `none`). -/
def applyUpdate (document : Doc) (update : Doc) : Option (Doc × Nat) :=
  match (match update.lookup "$push" with
         | none => some (document, 0)
         | some (.doc pairs) => some (applyPairs document pairs pushFun)
         | some _ => none) with
  | none => none
  | some (d1, m1) =>
    match (match update.lookup "$pull" with
           | none => some (d1, 0)
           | some (.doc pairs) => some (applyPairs d1 pairs pullFun)
           | some _ => none) with
    | none => none
    | some (d2, m2) => some (d2, max m1 m2)

/-- `update_one(query, update)`: scan the store in order for the first
document matching the query; apply the update to it and return the
modified count; when no document matches, return modified count 0 and
leave the store unchanged. -/
def update_one : Collection → Doc → Doc → Option (Collection × InMemoryResult)
  | [], _, _ => some ([], ⟨0⟩)
  | (identifier, document) :: rest, query, update =>
    match _matches_query document query with
    | none => none
    | some false =>
      match update_one rest query update with
      | none => none
      | some (rest2, r) => some ((identifier, document) :: rest2, r)
    | some true =>
      match applyUpdate document update with
      | none => none
      | some (d2, m) => some ((identifier, d2) :: rest, ⟨m⟩)

/-- A small concrete document used to instantiate theorems. -/
def docA : Doc := [("_id", Value.str "A"), ("tags", Value.list [Value.str "t"])]

/-- Whether a value is a Python dict. -/
def isDocV : Value → Bool
  | .doc _ => true
  | _ => false

/-- Whether a value is a Python list. -/
def isListV : Value → Bool
  | .list _ => true
  | _ => false

/-- A document is grouping-friendly when its value at the fixed path
`schedule_details.days` is falsy (absent, null, empty, zero) or is a list
of strings: exactly the documents on which the aggregate loop neither
raises nor contributes non-string values. -/
def goodDays (d : Doc) : Prop :=
  pyTruthy (_get_nested_value d "schedule_details.days") = false ∨
    ∃ ss : List String,
      _get_nested_value d "schedule_details.days" = Value.list (ss.map Value.str)

section Examples

def chessClub : Doc :=
  [("_id", Value.str "Chess Club"),
   ("schedule_details", Value.doc [("days", Value.list [Value.str "Monday", Value.str "Friday"])]),
   ("max_participants", Value.int 12),
   ("participants", Value.list [Value.str "michael@mergington.edu", Value.str "daniel@mergington.edu"])]

example :
    update_one [(Value.str "Chess Club", chessClub)]
      [("_id", Value.str "Chess Club")]
      [("$push", Value.doc [("participants", Value.str "x@mergington.edu")])] =
    some ([(Value.str "Chess Club",
      [("_id", Value.str "Chess Club"),
       ("schedule_details", Value.doc [("days", Value.list [Value.str "Monday", Value.str "Friday"])]),
       ("max_participants", Value.int 12),
       ("participants", Value.list [Value.str "michael@mergington.edu",
          Value.str "daniel@mergington.edu", Value.str "x@mergington.edu"])])], ⟨1⟩) := by decide

example :
    update_one [(Value.str "Chess Club", chessClub)]
      [("_id", Value.str "Chess Club")]
      [("$pull", Value.doc [("participants", Value.str "nobody@mergington.edu")])] =
    some ([(Value.str "Chess Club", chessClub)], ⟨0⟩) := by decide

example :
    aggregate [] [(Value.str "A", [("_id", Value.str "A"),
        ("schedule_details", Value.doc [("days", Value.int 7)])])] = none := by decide

example :
    aggregate []
      [(Value.str "Chess Club", chessClub),
       (Value.str "B", [("_id", Value.str "B"),
          ("schedule_details", Value.doc [("days", Value.list [Value.str "Tuesday", Value.str "Monday"])])])] =
    some [[("_id", Value.str "Friday")], [("_id", Value.str "Monday")], [("_id", Value.str "Tuesday")]] := by
  decide

end Examples

/-! ## Helper lemmas -/

theorem matches_query_single (d : Doc) (k : String) (e : Value) :
    _matches_query d [(k, e)] = matchesConstraint d k e := by
  rcases h : matchesConstraint d k e with _ | b
  · simp [_matches_query, h]
  · cases b <;> simp [_matches_query, h]

theorem get_nested_of_resolve_none (d : Doc) (k : String)
    (h : goResolve (.doc d) (splitDot k) = none) :
    _get_nested_value d k = Value.null := by
  rw [_get_nested_value, h]
  rfl

theorem get_nested_of_resolve_some (d : Doc) (k : String) (v : Value)
    (h : goResolve (.doc d) (splitDot k) = some v) :
    _get_nested_value d k = v := by
  rw [_get_nested_value, h]
  rfl

/-! ## C9 -/

/-- C9: a field constraint whose expected value is a dict containing none
of the recognized operator keys constrains nothing: every document,
including one where the field is absent, satisfies it; consequently a
field holding a nested document can never be selected by literal equality
on that nested document. -/
theorem claim9_unrecognized_ops (d : Doc) (k : String) (ops : List (String × Value))
    (hin : ops.lookup "$in" = none) (hgte : ops.lookup "$gte" = none)
    (hlte : ops.lookup "$lte" = none) :
    _matches_query d [(k, Value.doc ops)] = some true := by
  rw [matches_query_single]
  simp [matchesConstraint, hin, hgte, hlte]

/-- Witness for C9: the empty document (field absent) satisfies a
constraint whose dict operand has no recognized operator key. -/
theorem claim9_witness :
    ([("days", Value.str "Monday")].lookup "$in" = none ∧
      [("days", Value.str "Monday")].lookup "$gte" = none ∧
      [("days", Value.str "Monday")].lookup "$lte" = none) ∧
    _matches_query [] [("schedule_details", Value.doc [("days", Value.str "Monday")])] = some true :=
  ⟨⟨by decide, by decide, by decide⟩,
    claim9_unrecognized_ops [] "schedule_details" [("days", Value.str "Monday")]
      (by decide) (by decide) (by decide)⟩

/-! ## C1 -/

/-- C1 counterexample: the claim says a document in which the dotted path
does not resolve never matches an equality constraint, even when the
literal is null; but for the empty document (where the path "a" does not
resolve) and the literal null, `_matches_query` returns a match, because
the Python sentinel for failed resolution is the value None itself. -/
theorem claim1_counterexample :
    goResolve (.doc []) (splitDot "a") = none ∧
      _matches_query [] [("a", Value.null)] = some true := by
  constructor
  · decide
  · decide

/-- C1 amended: the absent outcome of path resolution behaves like the
stored value null (the Python function returns None for both), so an
equality constraint with a non-null literal never matches a document in
which the path does not resolve, while an equality constraint with the
literal null does match such a document. -/
theorem claim1_absent_equality (d : Doc) (k : String) (lit : Value)
    (hres : goResolve (.doc d) (splitDot k) = none) (hdoc : isDocV lit = false) :
    (lit ≠ Value.null → matchesConstraint d k lit = some false) ∧
    (lit = Value.null → matchesConstraint d k lit = some true) := by
  have hget : _get_nested_value d k = Value.null := get_nested_of_resolve_none d k hres
  cases lit <;> simp_all [matchesConstraint, isDocV]

/-- Witness for C1's amended theorem at a concrete input. -/
theorem claim1_witness :
    (goResolve (.doc []) (splitDot "a") = none ∧ isDocV (Value.int 5) = false) ∧
      matchesConstraint [] "a" (Value.int 5) = some false :=
  ⟨⟨by decide, by decide⟩,
    (claim1_absent_equality [] "a" (Value.int 5) (by decide) (by decide)).1
      (by intro h; cases h)⟩

/-! ## C2 -/

/-- C2 counterexample: the claim says a range constraint fails without
raising any error when the resolved value is not ordering-comparable with
the bound, but comparing a stored str with an int bound raises TypeError
in the code (modelled as `none`), rather than evaluating to "no match". -/
theorem claim2_counterexample :
    _matches_query [("max_participants", Value.str "many")]
      [("max_participants", Value.doc [("$gte", Value.int 15)])] = none := by
  decide

/-- C2 amended: a range constraint fails without error when the resolved
value is absent or null; when the resolved value is an int and the bounds
are ints, the standard comparisons apply and two range constraints on the
same field form a closed interval; a resolved value that is not
ordering-comparable with the bound raises a type error instead of
silently failing. -/
theorem claim2_range (d : Doc) (k : String) (b : Value) (n lo hi : Int) :
    (_get_nested_value d k = Value.null →
      _matches_query d [(k, Value.doc [("$gte", b)])] = some false ∧
      _matches_query d [(k, Value.doc [("$lte", b)])] = some false) ∧
    (_get_nested_value d k = Value.int n →
      _matches_query d [(k, Value.doc [("$gte", Value.int lo), ("$lte", Value.int hi)])] =
        some (decide (lo ≤ n ∧ n ≤ hi))) := by
  have hg1 : List.lookup "$in" [("$gte", b)] = none := rfl
  have hg2 : List.lookup "$gte" [("$gte", b)] = some b := rfl
  have hg3 : List.lookup "$lte" [("$gte", b)] = none := rfl
  have hl1 : List.lookup "$in" [("$lte", b)] = none := rfl
  have hl2 : List.lookup "$gte" [("$lte", b)] = none := rfl
  have hl3 : List.lookup "$lte" [("$lte", b)] = some b := rfl
  have hr1 : List.lookup "$in" [("$gte", Value.int lo), ("$lte", Value.int hi)] = none := rfl
  have hr2 : List.lookup "$gte" [("$gte", Value.int lo), ("$lte", Value.int hi)] =
      some (Value.int lo) := rfl
  have hr3 : List.lookup "$lte" [("$gte", Value.int lo), ("$lte", Value.int hi)] =
      some (Value.int hi) := rfl
  constructor
  · intro h
    constructor
    · rw [matches_query_single]
      simp [matchesConstraint, hg1, hg2, hg3, h, gteFails]
    · rw [matches_query_single]
      simp [matchesConstraint, hl1, hl2, hl3, h, lteFails]
  · intro h
    rw [matches_query_single]
    simp only [matchesConstraint, h, hr1, hr2, hr3]
    by_cases h1 : n < lo
    · simp [gteFails, pyLt, h1]
    · by_cases h2 : hi < n
      · simp [gteFails, lteFails, pyLt, h1, h2]
      · simp [gteFails, lteFails, pyLt, h1, h2]
        omega

/-- Witness for C2's amended theorem: 18 lies inside the closed interval
[15, 20], 12 and 25 do not, and an absent field never satisfies a range
constraint. -/
theorem claim2_witness :
    (_get_nested_value [("max_participants", Value.int 18)] "max_participants" = Value.int 18 ∧
      _get_nested_value [] "max_participants" = Value.null) ∧
    _matches_query [("max_participants", Value.int 18)]
      [("max_participants", Value.doc [("$gte", Value.int 15), ("$lte", Value.int 20)])] =
      some true ∧
    _matches_query [("max_participants", Value.int 12)]
      [("max_participants", Value.doc [("$gte", Value.int 15), ("$lte", Value.int 20)])] =
      some false ∧
    _matches_query [("max_participants", Value.int 25)]
      [("max_participants", Value.doc [("$gte", Value.int 15), ("$lte", Value.int 20)])] =
      some false ∧
    _matches_query [] [("max_participants", Value.doc [("$gte", Value.int 15)])] = some false := by
  refine ⟨⟨by decide, by decide⟩, ?_, ?_, ?_, ?_⟩
  · have := (claim2_range [("max_participants", Value.int 18)] "max_participants"
      (Value.int 15) 18 15 20).2 (by decide)
    simpa using this
  · have := (claim2_range [("max_participants", Value.int 12)] "max_participants"
      (Value.int 15) 12 15 20).2 (by decide)
    simpa using this
  · have := (claim2_range [("max_participants", Value.int 25)] "max_participants"
      (Value.int 15) 25 15 20).2 (by decide)
    simpa using this
  · exact ((claim2_range [] "max_participants" (Value.int 15) 0 15 20).1 (by decide)).1

/-! ## C3 -/

theorem any_eq_decide_mem (v : Value) (cand : List Value) :
    (cand.any fun y => decide (v = y)) = decide (v ∈ cand) := by
  by_cases hm : v ∈ cand
  · rw [decide_eq_true hm, List.any_eq_true]
    exact ⟨v, hm, by simp⟩
  · rw [decide_eq_false hm, List.any_eq_false]
    intro x hx
    simp only [decide_eq_true_eq]
    rintro rfl
    exact hm hx

theorem matchesConstraint_in (d : Doc) (k : String) (cand : Value) :
    matchesConstraint d k (Value.doc [("$in", cand)]) =
      inMatches (_get_nested_value d k) cand := by
  have h1 : List.lookup "$in" [("$in", cand)] = some cand := rfl
  have h2 : List.lookup "$gte" [("$in", cand)] = none := rfl
  have h3 : List.lookup "$lte" [("$in", cand)] = none := rfl
  rcases h : inMatches (_get_nested_value d k) cand with _ | b
  · simp [matchesConstraint, h1, h2, h3, h]
  · cases b <;> simp [matchesConstraint, h1, h2, h3, h]

/-- C3: a membership constraint matches a document whose resolved value is
a list exactly when some element of that list appears in the candidate
list (sequence-intersects-set semantics), and matches a document whose
resolved value is not a list exactly when that resolved value itself
appears in the candidate list. -/
theorem claim3_membership (d : Doc) (k : String) (cand : List Value) :
    (∀ xs, _get_nested_value d k = Value.list xs →
      _matches_query d [(k, Value.doc [("$in", Value.list cand)])] =
        some (decide (∃ a ∈ xs, a ∈ cand))) ∧
    (isListV (_get_nested_value d k) = false →
      _matches_query d [(k, Value.doc [("$in", Value.list cand)])] =
        some (decide (_get_nested_value d k ∈ cand))) := by
  constructor
  · intro xs h
    rw [matches_query_single, matchesConstraint_in, h]
    simp only [inMatches, pyIter, Option.some.injEq]
    by_cases he : ∃ a ∈ xs, a ∈ cand
    · rw [decide_eq_true he, List.any_eq_true]
      obtain ⟨a, ha, hc⟩ := he
      refine ⟨a, hc, ?_⟩
      rw [List.any_eq_true]
      exact ⟨a, ha, by simp⟩
    · rw [decide_eq_false he, Bool.eq_false_iff]
      intro hc
      rw [List.any_eq_true] at hc
      obtain ⟨item, hitem, hinner⟩ := hc
      rw [List.any_eq_true] at hinner
      obtain ⟨a, ha, hae⟩ := hinner
      have hai : a = item := of_decide_eq_true hae
      exact he ⟨a, ha, by rw [hai]; exact hitem⟩
  · intro h
    rw [matches_query_single, matchesConstraint_in]
    rcases hv : _get_nested_value d k with _ | n | s | xs | fs <;> rw [hv] at h
    · simp [inMatches, pyIn, any_eq_decide_mem]
    · simp [inMatches, pyIn, any_eq_decide_mem]
    · simp [inMatches, pyIn, any_eq_decide_mem]
    · simp [isListV] at h
    · simp [inMatches, pyIn, pyHashable, any_eq_decide_mem]

/-- Witness for C3: the schedule-days example from the specification. -/
theorem claim3_witness :
    (_get_nested_value
        [("schedule_details", Value.doc [("days", Value.list [Value.str "Monday", Value.str "Friday"])])]
        "schedule_details.days" = Value.list [Value.str "Monday", Value.str "Friday"]) ∧
    _matches_query
      [("schedule_details", Value.doc [("days", Value.list [Value.str "Monday", Value.str "Friday"])])]
      [("schedule_details.days", Value.doc [("$in", Value.list [Value.str "Monday"])])] = some true ∧
    _matches_query
      [("schedule_details", Value.doc [("days", Value.list [Value.str "Tuesday"])])]
      [("schedule_details.days", Value.doc [("$in", Value.list [Value.str "Monday"])])] = some false := by
  refine ⟨by decide, ?_, ?_⟩
  · have := (claim3_membership
      [("schedule_details", Value.doc [("days", Value.list [Value.str "Monday", Value.str "Friday"])])]
      "schedule_details.days" [Value.str "Monday"]).1
      [Value.str "Monday", Value.str "Friday"] (by decide)
    rw [this]
    decide
  · have := (claim3_membership
      [("schedule_details", Value.doc [("days", Value.list [Value.str "Tuesday"])])]
      "schedule_details.days" [Value.str "Monday"]).1
      [Value.str "Tuesday"] (by decide)
    rw [this]
    decide

/-! ## Update machinery lemmas -/

theorem lookup_replaceFirst_self (fields : List (String × Value)) (p : String) (w w' : Value)
    (h : fields.lookup p = some w) : (replaceFirst fields p w').lookup p = some w' := by
  induction fields with
  | nil => simp [List.lookup] at h
  | cons kv rest ih =>
    obtain ⟨k, x⟩ := kv
    by_cases hk : k = p
    · subst hk
      simp [replaceFirst, List.lookup]
    · rw [List.lookup] at h
      rw [beq_eq_false_iff_ne.mpr (fun he => hk he.symm)] at h
      simp only [replaceFirst, if_neg hk, List.lookup,
        beq_eq_false_iff_ne.mpr (fun he => hk he.symm)]
      exact ih h

theorem replaceFirst_self_id (fields : List (String × Value)) (p : String) (w : Value)
    (h : fields.lookup p = some w) : replaceFirst fields p w = fields := by
  induction fields with
  | nil => rfl
  | cons kv rest ih =>
    obtain ⟨k, x⟩ := kv
    by_cases hk : k = p
    · subst hk
      rw [List.lookup, beq_self_eq_true] at h
      simp only [Option.some.injEq] at h
      simp [replaceFirst, h]
    · rw [List.lookup, beq_eq_false_iff_ne.mpr (fun he => hk he.symm)] at h
      simp [replaceFirst, if_neg hk, ih h]

theorem goModify_resolved_list (parts : List String) :
    ∀ (v : Value) (xs : List Value) (f : List Value → List Value × Nat),
      goResolve v parts = some (Value.list xs) →
      ∃ v', goModify v parts f = (v', (f xs).2) ∧
        goResolve v' parts = some (Value.list (f xs).1) := by
  induction parts with
  | nil =>
    intro v xs f h
    rw [goResolve] at h
    simp only [Option.some.injEq] at h
    subst h
    exact ⟨Value.list (f xs).1, rfl, rfl⟩
  | cons p rest ih =>
    intro v xs f h
    cases v with
    | doc fields =>
      rcases hl : fields.lookup p with _ | w
      · simp [goResolve, hl] at h
      · simp only [goResolve, hl] at h
        obtain ⟨w', hw1, hw2⟩ := ih w xs f h
        refine ⟨Value.doc (replaceFirst fields p w'), ?_, ?_⟩
        · simp only [goModify, hl, hw1]
        · simp only [goResolve, lookup_replaceFirst_self fields p w w' hl]
          exact hw2
    | null => simp [goResolve] at h
    | int n => simp [goResolve] at h
    | str s => simp [goResolve] at h
    | list ys => simp [goResolve] at h

theorem goModify_not_list (parts : List String) :
    ∀ (v : Value) (f : List Value → List Value × Nat),
      (∀ xs, goResolve v parts ≠ some (Value.list xs)) →
      goModify v parts f = (v, 0) := by
  induction parts with
  | nil =>
    intro v f h
    cases v with
    | list xs => exact absurd rfl (h xs)
    | null => rfl
    | int n => rfl
    | str s => rfl
    | doc fields => rfl
  | cons p rest ih =>
    intro v f h
    cases v with
    | doc fields =>
      rcases hl : fields.lookup p with _ | w
      · simp only [goModify, hl]
      · have h' : ∀ xs, goResolve w rest ≠ some (Value.list xs) := by
          intro xs hc
          exact h xs (by simp only [goResolve, hl]; exact hc)
        simp only [goModify, hl, ih w f h', replaceFirst_self_id fields p w hl]
    | null => rfl
    | int n => rfl
    | str s => rfl
    | list ys => rfl

theorem goModify_keeps (parts : List String) :
    ∀ (v : Value) (xs : List Value) (f : List Value → List Value × Nat),
      goResolve v parts = some (Value.list xs) → (f xs).1 = xs →
      goModify v parts f = (v, (f xs).2) := by
  induction parts with
  | nil =>
    intro v xs f h hf
    rw [goResolve] at h
    simp only [Option.some.injEq] at h
    subst h
    rw [goModify, hf]
  | cons p rest ih =>
    intro v xs f h hf
    cases v with
    | doc fields =>
      rcases hl : fields.lookup p with _ | w
      · simp [goResolve, hl] at h
      · simp only [goResolve, hl] at h
        simp only [goModify, hl, ih w xs f h hf, replaceFirst_self_id fields p w hl]
    | null => simp [goResolve] at h
    | int n => simp [goResolve] at h
    | str s => simp [goResolve] at h
    | list ys => simp [goResolve] at h

theorem goModify_doc_shape (d : Doc) (parts : List String) (f : List Value → List Value × Nat) :
    ∃ d' m, goModify (Value.doc d) parts f = (Value.doc d', m) := by
  cases parts with
  | nil => exact ⟨d, 0, rfl⟩
  | cons p rest =>
    rcases hl : d.lookup p with _ | w
    · exact ⟨d, 0, by rw [goModify, hl]⟩
    · exact ⟨replaceFirst d p (goModify w rest f).1, (goModify w rest f).2, by rw [goModify, hl]⟩

theorem get_nested_list_iff (d : Doc) (k : String) (xs : List Value) :
    _get_nested_value d k = Value.list xs ↔
      goResolve (Value.doc d) (splitDot k) = some (Value.list xs) := by
  rw [_get_nested_value]
  rcases h : goResolve (Value.doc d) (splitDot k) with _ | v
  · simp
  · simp

theorem applyListOp_list (d : Doc) (field : String) (xs : List Value)
    (f : List Value → List Value × Nat)
    (h : _get_nested_value d field = Value.list xs) :
    ∃ d', applyListOp d field f = (d', (f xs).2) ∧
      _get_nested_value d' field = Value.list (f xs).1 := by
  rw [get_nested_list_iff] at h
  obtain ⟨v', hv1, hv2⟩ := goModify_resolved_list (splitDot field) (Value.doc d) xs f h
  obtain ⟨d', m, hd⟩ := goModify_doc_shape d (splitDot field) f
  rw [hd] at hv1
  obtain ⟨he, hm⟩ := Prod.mk.injEq .. ▸ hv1
  refine ⟨d', ?_, ?_⟩
  · rw [applyListOp, hd, hm]
  · rw [get_nested_list_iff, he]
    exact hv2

theorem applyListOp_not_list (d : Doc) (field : String) (f : List Value → List Value × Nat)
    (h : isListV (_get_nested_value d field) = false) :
    applyListOp d field f = (d, 0) := by
  have h' : ∀ xs, goResolve (Value.doc d) (splitDot field) ≠ some (Value.list xs) := by
    intro xs hc
    rw [← get_nested_list_iff] at hc
    rw [hc] at h
    simp [isListV] at h
  rw [applyListOp, goModify_not_list (splitDot field) (Value.doc d) f h']

theorem applyListOp_keeps (d : Doc) (field : String) (xs : List Value)
    (f : List Value → List Value × Nat)
    (h : _get_nested_value d field = Value.list xs) (hf : (f xs).1 = xs) :
    applyListOp d field f = (d, (f xs).2) := by
  rw [get_nested_list_iff] at h
  rw [applyListOp, goModify_keeps (splitDot field) (Value.doc d) xs f h hf]

theorem applyUpdate_push_single (d : Doc) (field : String) (v : Value) :
    applyUpdate d [("$push", Value.doc [(field, v)])] =
      some ((applyListOp d field (pushFun v)).1, (applyListOp d field (pushFun v)).2) := by
  have h1 : List.lookup "$push" [("$push", Value.doc [(field, v)])] =
      some (Value.doc [(field, v)]) := rfl
  have h2 : List.lookup "$pull" [("$push", Value.doc [(field, v)])] = none := rfl
  rw [applyUpdate, h1, h2]
  simp [applyPairs]

theorem applyUpdate_pull_single (d : Doc) (field : String) (v : Value) :
    applyUpdate d [("$pull", Value.doc [(field, v)])] =
      some ((applyListOp d field (pullFun v)).1, (applyListOp d field (pullFun v)).2) := by
  have h1 : List.lookup "$push" [("$pull", Value.doc [(field, v)])] = none := rfl
  have h2 : List.lookup "$pull" [("$pull", Value.doc [(field, v)])] =
      some (Value.doc [(field, v)]) := rfl
  rw [applyUpdate, h1, h2]
  simp [applyPairs]

theorem update_one_head_match (k : Value) (d : Doc) (rest : Collection) (q u : Doc)
    (h : _matches_query d q = some true) :
    update_one ((k, d) :: rest) q u =
      match applyUpdate d u with
      | none => none
      | some (d2, m) => some ((k, d2) :: rest, ⟨m⟩) := by
  rw [update_one, h]

theorem update_one_no_match (c : Collection) (q u : Doc)
    (h : ∀ pr ∈ c, _matches_query pr.2 q = some false) :
    update_one c q u = some (c, ⟨0⟩) := by
  induction c with
  | nil => rfl
  | cons pr rest ih =>
    obtain ⟨k, d⟩ := pr
    have hd : _matches_query d q = some false := h (k, d) (List.mem_cons_self _ _)
    rw [update_one, hd, ih (fun pr hpr => h pr (List.mem_cons_of_mem _ hpr))]

theorem update_one_frame (c : Collection) (q u : Doc) :
    ∀ c' r, update_one c q u = some (c', r) →
      (c' = c ∧ r = ⟨0⟩ ∧ ∀ pr ∈ c, _matches_query pr.2 q = some false) ∨
      (∃ pre k d suf d' m, c = pre ++ (k, d) :: suf ∧ c' = pre ++ (k, d') :: suf ∧
        (∀ pr ∈ pre, _matches_query pr.2 q = some false) ∧
        _matches_query d q = some true ∧ applyUpdate d u = some (d', m) ∧ r = ⟨m⟩) := by
  induction c with
  | nil =>
    intro c' r h
    rw [update_one] at h
    simp only [Option.some.injEq, Prod.mk.injEq] at h
    exact Or.inl ⟨h.1.symm, h.2.symm, by simp⟩
  | cons pr rest ih =>
    intro c' r h
    obtain ⟨k, d⟩ := pr
    rw [update_one] at h
    rcases hm : _matches_query d q with _ | b
    · rw [hm] at h; cases h
    · rw [hm] at h
      cases b with
      | true =>
        rcases ha : applyUpdate d u with _ | d2m
        · rw [ha] at h; cases h
        · obtain ⟨d2, m⟩ := d2m
          rw [ha] at h
          simp only [Option.some.injEq, Prod.mk.injEq] at h
          refine Or.inr ⟨[], k, d, rest, d2, m, rfl, ?_, by simp, hm, ha, h.2.symm⟩
          rw [← h.1]
          rfl
      | false =>
        rcases hr : update_one rest q u with _ | cr
        · rw [hr] at h; cases h
        · obtain ⟨rest2, r2⟩ := cr
          rw [hr] at h
          simp only [Option.some.injEq, Prod.mk.injEq] at h
          rcases ih rest2 r2 hr with ⟨he, hr2, hall⟩ | ⟨pre, k2, d2, suf, d2', m, h1, h2, h3, h4, h5, h6⟩
          · refine Or.inl ⟨?_, ?_, ?_⟩
            · rw [← h.1, he]
            · rw [← h.2, hr2]
            · intro pr hpr
              rcases List.mem_cons.mp hpr with he2 | he2
              · rw [he2]; exact hm
              · exact hall pr he2
          · refine Or.inr ⟨(k, d) :: pre, k2, d2, suf, d2', m, by rw [h1]; rfl, ?_, ?_, h4, h5, by rw [← h.2, h6]⟩
            · rw [← h.1, h2]
              rfl
            · intro pr hpr
              rcases List.mem_cons.mp hpr with he2 | he2
              · rw [he2]; exact hm
              · exact h3 pr he2

/-! ## C4 -/

/-- C4: when `update_one` finds a matching document (here: the first
document of the store matches), a `$push` pair whose path resolves to a
list appends the value (the list grows by exactly one element) with
modified count 1, a `$push` pair whose path does not resolve to a list is
a no-op with modified count 0, a `$pull` pair whose path resolves to a
list containing the value removes the first occurrence with modified
count 1, and pulling a value that is not present reports modified count 0
with no mutation. -/
theorem claim4_push_pull (k : Value) (d : Doc) (rest : Collection) (q : Doc)
    (fld : String) (v : Value) (hq : _matches_query d q = some true) :
    (∀ xs, _get_nested_value d fld = Value.list xs →
      ∃ d', update_one ((k, d) :: rest) q [("$push", Value.doc [(fld, v)])] =
          some ((k, d') :: rest, ⟨1⟩) ∧
        _get_nested_value d' fld = Value.list (xs ++ [v])) ∧
    (isListV (_get_nested_value d fld) = false →
      update_one ((k, d) :: rest) q [("$push", Value.doc [(fld, v)])] =
        some ((k, d) :: rest, ⟨0⟩)) ∧
    (∀ xs, _get_nested_value d fld = Value.list xs → v ∈ xs →
      ∃ d', update_one ((k, d) :: rest) q [("$pull", Value.doc [(fld, v)])] =
          some ((k, d') :: rest, ⟨1⟩) ∧
        _get_nested_value d' fld = Value.list (xs.erase v)) ∧
    (∀ xs, _get_nested_value d fld = Value.list xs → v ∉ xs →
      update_one ((k, d) :: rest) q [("$pull", Value.doc [(fld, v)])] =
        some ((k, d) :: rest, ⟨0⟩)) := by
  refine ⟨?_, ?_, ?_, ?_⟩
  · intro xs hxs
    obtain ⟨d', h1, h2⟩ := applyListOp_list d fld xs (pushFun v) hxs
    refine ⟨d', ?_, h2⟩
    rw [update_one_head_match k d rest q _ hq, applyUpdate_push_single, h1]
    rfl
  · intro hnl
    rw [update_one_head_match k d rest q _ hq, applyUpdate_push_single,
      applyListOp_not_list d fld (pushFun v) hnl]
  · intro xs hxs hv
    have hc : xs.contains v = true := List.elem_eq_true_of_mem hv
    have hfun : pullFun v xs = (xs.erase v, 1) := by rw [pullFun, if_pos hc]
    obtain ⟨d', h1, h2⟩ := applyListOp_list d fld xs (pullFun v) hxs
    rw [hfun] at h1 h2
    refine ⟨d', ?_, h2⟩
    rw [update_one_head_match k d rest q _ hq, applyUpdate_pull_single, h1]
  · intro xs hxs hv
    have hc : xs.contains v = false := by
      rw [← Bool.not_eq_true]
      intro hcc
      exact hv (List.mem_of_elem_eq_true hcc)
    have hfun : pullFun v xs = (xs, 0) := by rw [pullFun, if_neg (by rw [hc]; exact Bool.false_ne_true)]
    have hkeep : applyListOp d fld (pullFun v) = (d, (pullFun v xs).2) :=
      applyListOp_keeps d fld xs (pullFun v) hxs (by rw [hfun])
    rw [hfun] at hkeep
    rw [update_one_head_match k d rest q _ hq, applyUpdate_pull_single, hkeep]

/-- Witness for C4 on the Chess Club document of the seed data. -/
theorem claim4_witness :
    (_matches_query chessClub [("_id", Value.str "Chess Club")] = some true ∧
      _get_nested_value chessClub "participants" =
        Value.list [Value.str "michael@mergington.edu", Value.str "daniel@mergington.edu"]) ∧
    (∃ d', update_one [(Value.str "Chess Club", chessClub)] [("_id", Value.str "Chess Club")]
        [("$push", Value.doc [("participants", Value.str "x@mergington.edu")])] =
        some ([(Value.str "Chess Club", d')], ⟨1⟩) ∧
      _get_nested_value d' "participants" =
        Value.list ([Value.str "michael@mergington.edu", Value.str "daniel@mergington.edu"] ++
          [Value.str "x@mergington.edu"])) ∧
    update_one [(Value.str "Chess Club", chessClub)] [("_id", Value.str "Chess Club")]
        [("$pull", Value.doc [("participants", Value.str "nobody@mergington.edu")])] =
      some ([(Value.str "Chess Club", chessClub)], ⟨0⟩) :=
  ⟨⟨by decide, by decide⟩,
    (claim4_push_pull (Value.str "Chess Club") chessClub [] [("_id", Value.str "Chess Club")]
        "participants" (Value.str "x@mergington.edu") (by decide)).1
      [Value.str "michael@mergington.edu", Value.str "daniel@mergington.edu"] (by decide),
    (claim4_push_pull (Value.str "Chess Club") chessClub [] [("_id", Value.str "Chess Club")]
        "participants" (Value.str "nobody@mergington.edu") (by decide)).2.2.2
      [Value.str "michael@mergington.edu", Value.str "daniel@mergington.edu"]
      (by decide) (by decide)⟩

/-! ## C5 -/

/-- C5: `update_one` touches at most the first matching document in store
iteration order: whenever the call completes, either no document matched
(the store is returned unchanged with modified count 0) or the store is
unchanged except possibly at the first matching document, every document
before it having failed the filter; and when every document fails the
filter the call completes without error, returns modified count 0 and
leaves the store unchanged. -/
theorem claim5_first_match_only (c : Collection) (q u : Doc) :
    ((∀ pr ∈ c, _matches_query pr.2 q = some false) → update_one c q u = some (c, ⟨0⟩)) ∧
    (∀ c' r, update_one c q u = some (c', r) →
      (c' = c ∧ r.modified_count = 0 ∧ ∀ pr ∈ c, _matches_query pr.2 q = some false) ∨
      (∃ pre k d suf d', c = pre ++ (k, d) :: suf ∧ c' = pre ++ (k, d') :: suf ∧
        (∀ pr ∈ pre, _matches_query pr.2 q = some false) ∧
        _matches_query d q = some true)) := by
  constructor
  · exact update_one_no_match c q u
  · intro c' r h
    rcases update_one_frame c q u c' r h with
      ⟨h1, h2, h3⟩ | ⟨pre, k, d, suf, d', m, h1, h2, h3, h4, h5, h6⟩
    · exact Or.inl ⟨h1, by rw [h2], h3⟩
    · exact Or.inr ⟨pre, k, d, suf, d', h1, h2, h3, h4⟩

/-- Witness for C5 at a concrete store: a filter no document satisfies
leaves the two-document store untouched with modified count 0, and the
frame characterization holds for that completed call. -/
theorem claim5_witness :
    update_one [(Value.str "A", docA), (Value.str "B", docA)]
        [("category", Value.str "club")] [("$push", Value.doc [("tags", Value.str "x")])] =
      some ([(Value.str "A", docA), (Value.str "B", docA)], ⟨0⟩) ∧
    ((([(Value.str "A", docA), (Value.str "B", docA)] : Collection) =
        [(Value.str "A", docA), (Value.str "B", docA)] ∧
      (⟨0⟩ : InMemoryResult).modified_count = 0 ∧
      ∀ pr ∈ ([(Value.str "A", docA), (Value.str "B", docA)] : Collection),
        _matches_query pr.2 [("category", Value.str "club")] = some false) ∨
    (∃ pre k d suf d',
      ([(Value.str "A", docA), (Value.str "B", docA)] : Collection) = pre ++ (k, d) :: suf ∧
      ([(Value.str "A", docA), (Value.str "B", docA)] : Collection) = pre ++ (k, d') :: suf ∧
      (∀ pr ∈ pre, _matches_query pr.2 [("category", Value.str "club")] = some false) ∧
      _matches_query d [("category", Value.str "club")] = some true)) :=
  ⟨(claim5_first_match_only [(Value.str "A", docA), (Value.str "B", docA)]
      [("category", Value.str "club")] [("$push", Value.doc [("tags", Value.str "x")])]).1
      (by decide),
    (claim5_first_match_only [(Value.str "A", docA), (Value.str "B", docA)]
      [("category", Value.str "club")] [("$push", Value.doc [("tags", Value.str "x")])]).2
      [(Value.str "A", docA), (Value.str "B", docA)] ⟨0⟩ (by decide)⟩

/-! ## Store order lemmas (insert / count / find) -/

theorem count_documents_empty_query (c : Collection) :
    count_documents c [] = some c.length := by
  induction c with
  | nil => rfl
  | cons pr rest ih =>
    obtain ⟨k, d⟩ := pr
    have hm : _matches_query d [] = some true := rfl
    simp only [count_documents, hm, ih]
    rfl

theorem dictSet_mem_decompose (c : Collection) (i : Value) (d : Doc)
    (h : i ∈ c.map Prod.fst) :
    ∃ pre e suf, c = pre ++ (i, e) :: suf ∧ (i ∉ pre.map Prod.fst) ∧
      dictSet c i d = pre ++ (i, d) :: suf := by
  induction c with
  | nil => simp at h
  | cons pr rest ih =>
    obtain ⟨k, e⟩ := pr
    by_cases hk : k = i
    · subst hk
      exact ⟨[], e, rest, rfl, by simp, by rw [dictSet, if_pos rfl]; rfl⟩
    · have h' : i ∈ rest.map Prod.fst := by
        rw [List.map_cons] at h
        rcases List.mem_cons.mp h with he | he
        · exact absurd he.symm hk
        · exact he
      obtain ⟨pre, e2, suf, h1, h2, h3⟩ := ih h'
      refine ⟨(k, e) :: pre, e2, suf, by rw [h1]; rfl, ?_, ?_⟩
      · simp only [List.map_cons, List.mem_cons]
        rintro (he | he)
        · exact hk he.symm
        · exact h2 he
      · rw [dictSet, if_neg hk, h3]
        rfl

theorem dictSet_not_mem (c : Collection) (i : Value) (d : Doc)
    (h : i ∉ c.map Prod.fst) : dictSet c i d = c ++ [(i, d)] := by
  induction c with
  | nil => rfl
  | cons pr rest ih =>
    obtain ⟨k, e⟩ := pr
    simp only [List.map_cons, List.mem_cons] at h
    rw [dictSet, if_neg (fun hk => h (Or.inl hk.symm)), ih (fun hm => h (Or.inr hm))]
    rfl

theorem update_one_keys (c : Collection) (q u : Doc) (c' : Collection) (r : InMemoryResult)
    (h : update_one c q u = some (c', r)) : c'.map Prod.fst = c.map Prod.fst := by
  rcases update_one_frame c q u c' r h with
    ⟨h1, _, _⟩ | ⟨pre, k, d, suf, d', m, h1, h2, _, _, _, _⟩
  · rw [h1]
  · rw [h1, h2]
    simp

/-! ## C8 -/

/-- C8: inserting a document whose identifier equals that of an
already-stored document replaces the stored document in place without any
uniqueness error: the identifier sequence (hence also the unconditional
document count) is unchanged; and both insertion and update preserve
uniqueness of identifiers. -/
theorem claim8_duplicate_insert (c : Collection) (d : Doc) (i : Value)
    (hid : d.lookup "_id" = some i) (hh : pyHashable i = true) :
    (i ∈ c.map Prod.fst →
      ∃ pre e suf, c = pre ++ (i, e) :: suf ∧
        insert_one c d = some (pre ++ (i, d) :: suf) ∧
        (pre ++ (i, d) :: suf).map Prod.fst = c.map Prod.fst ∧
        count_documents (pre ++ (i, d) :: suf) [] = count_documents c []) ∧
    ((c.map Prod.fst).Nodup → ∀ c', insert_one c d = some c' → (c'.map Prod.fst).Nodup) ∧
    ((c.map Prod.fst).Nodup →
      ∀ q u c' r, update_one c q u = some (c', r) → (c'.map Prod.fst).Nodup) := by
  refine ⟨?_, ?_, ?_⟩
  · intro hmem
    obtain ⟨pre, e, suf, h1, h2, h3⟩ := dictSet_mem_decompose c i d hmem
    have hkeys : (pre ++ (i, d) :: suf).map Prod.fst = c.map Prod.fst := by
      rw [h1]
      simp
    refine ⟨pre, e, suf, h1, ?_, hkeys, ?_⟩
    · simp only [insert_one, hid]
      rw [if_pos hh, h3]
    · rw [count_documents_empty_query, count_documents_empty_query, h1]
      simp
  · intro hnd c' hc'
    simp only [insert_one, hid] at hc'
    rw [if_pos hh] at hc'
    simp only [Option.some.injEq] at hc'
    subst hc'
    by_cases hmem : i ∈ c.map Prod.fst
    · obtain ⟨pre, e, suf, h1, _, h3⟩ := dictSet_mem_decompose c i d hmem
      rw [h3]
      have : (pre ++ (i, d) :: suf).map Prod.fst = c.map Prod.fst := by rw [h1]; simp
      rw [this]
      exact hnd
    · rw [dictSet_not_mem c i d hmem]
      simp only [List.map_append, List.map_cons, List.map_nil]
      exact List.Nodup.append hnd (List.nodup_singleton i)
        (by simpa [List.disjoint_right] using hmem)
  · intro hnd q u c' r hc'
    rw [update_one_keys c q u c' r hc']
    exact hnd

/-- Witness for C8 at a concrete store. -/
theorem claim8_witness :
    (docA.lookup "_id" = some (Value.str "A") ∧ pyHashable (Value.str "A") = true ∧
      Value.str "A" ∈ ([(Value.str "A", docA)] : Collection).map Prod.fst) ∧
    (∃ pre e suf, ([(Value.str "A", docA)] : Collection) = pre ++ (Value.str "A", e) :: suf ∧
      insert_one [(Value.str "A", docA)] docA = some (pre ++ (Value.str "A", docA) :: suf) ∧
      (pre ++ (Value.str "A", docA) :: suf).map Prod.fst =
        ([(Value.str "A", docA)] : Collection).map Prod.fst ∧
      count_documents (pre ++ (Value.str "A", docA) :: suf) [] =
        count_documents [(Value.str "A", docA)] []) :=
  ⟨⟨by decide, by decide, by decide⟩,
    (claim8_duplicate_insert [(Value.str "A", docA)] docA (Value.str "A")
      (by decide) (by decide)).1 (by decide)⟩

/-! ## C10 -/

/-- C10: every scanning operation visits documents in first-insertion
order: re-inserting an existing identifier keeps its position (the
identifier sequence is unchanged), a new identifier is appended at the
end, `find` / `find_one` / `count_documents` are determined by the store
sequence in order (the matches in store order, the first of them, and
their number), and `update_one` preserves the identifier sequence. -/
theorem claim10_iteration_order (c : Collection) (q : Doc) (d : Doc) (i : Value) :
    (d.lookup "_id" = some i → pyHashable i = true →
      (i ∈ c.map Prod.fst →
        ∃ c', insert_one c d = some c' ∧ c'.map Prod.fst = c.map Prod.fst) ∧
      (i ∉ c.map Prod.fst → insert_one c d = some (c ++ [(i, d)]))) ∧
    ((∀ pr ∈ c, _matches_query pr.2 q ≠ none) →
      find c q =
        some ((c.filter (fun pr => _matches_query pr.2 q = some true)).map Prod.snd) ∧
      find_one c q =
        some (((c.filter (fun pr => _matches_query pr.2 q = some true)).map Prod.snd).head?) ∧
      count_documents c q =
        some ((c.filter (fun pr => _matches_query pr.2 q = some true)).length)) ∧
    (∀ u c' r, update_one c q u = some (c', r) → c'.map Prod.fst = c.map Prod.fst) := by
  refine ⟨?_, ?_, ?_⟩
  · intro hid hh
    constructor
    · intro hmem
      obtain ⟨pre, e, suf, h1, _, h3⟩ := dictSet_mem_decompose c i d hmem
      refine ⟨pre ++ (i, d) :: suf, ?_, by rw [h1]; simp⟩
      simp only [insert_one, hid]
      rw [if_pos hh, h3]
    · intro hmem
      simp only [insert_one, hid]
      rw [if_pos hh, dictSet_not_mem c i d hmem]
  · intro hor
    induction c with
    | nil => exact ⟨rfl, rfl, rfl⟩
    | cons pr rest ih =>
      obtain ⟨k, e⟩ := pr
      have hor' : ∀ pr ∈ rest, _matches_query pr.2 q ≠ none :=
        fun pr hpr => hor pr (List.mem_cons_of_mem _ hpr)
      obtain ⟨ihf, ihfo, ihc⟩ := ih hor'
      rcases hm : _matches_query e q with _ | b
      · exact absurd hm (hor (k, e) (List.mem_cons_self _ _))
      · cases b with
        | true =>
          refine ⟨?_, ?_, ?_⟩
          · rw [find, hm, ihf]
            simp [List.filter_cons, hm]
          · rw [find_one, hm]
            simp [List.filter_cons, hm]
          · rw [count_documents, hm, ihc]
            simp [List.filter_cons, hm]
        | false =>
          refine ⟨?_, ?_, ?_⟩
          · simp [find, hm, ihf, List.filter_cons]
          · simp [find_one, hm, ihfo, List.filter_cons]
          · simp [count_documents, hm, ihc, List.filter_cons]
  · intro u c' r h
    exact update_one_keys c q u c' r h

/-- Witness for C10 at a concrete store. -/
theorem claim10_witness :
    ((∀ pr ∈ ([(Value.str "A", docA)] : Collection), _matches_query pr.2 [] ≠ none) ∧
      docA.lookup "_id" = some (Value.str "A") ∧ pyHashable (Value.str "A") = true) ∧
    find [(Value.str "A", docA)] [] =
      some ((([(Value.str "A", docA)] : Collection).filter
        (fun pr => _matches_query pr.2 [] = some true)).map Prod.snd) ∧
    insert_one [] docA = some ([] ++ [(Value.str "A", docA)]) :=
  ⟨⟨by decide, by decide, by decide⟩,
    ((claim10_iteration_order [(Value.str "A", docA)] [] docA (Value.str "A")).2.1
      (by decide)).1,
    ((claim10_iteration_order [] [] docA (Value.str "A")).1
      (by decide) (by decide)).2 (by decide)⟩

/-! ## String order lemmas for the grouping query -/

theorem charsLe_total : ∀ cs ds : List Char, charsLe cs ds = true ∨ charsLe ds cs = true
  | [], _ => Or.inl rfl
  | _ :: _, [] => Or.inr rfl
  | c :: cs, d :: ds => by
    by_cases hcd : c = d
    · subst hcd
      rcases charsLe_total cs ds with h | h
      · exact Or.inl (by rw [charsLe, if_pos rfl]; exact h)
      · exact Or.inr (by rw [charsLe, if_pos rfl]; exact h)
    · rcases lt_or_gt_of_ne hcd with h | h
      · exact Or.inl (by rw [charsLe, if_neg hcd]; exact decide_eq_true h)
      · exact Or.inr (by
          rw [charsLe, if_neg (fun he => hcd he.symm)]
          exact decide_eq_true h)

theorem charsLe_trans :
    ∀ as bs cs : List Char, charsLe as bs = true → charsLe bs cs = true → charsLe as cs = true
  | [], _, _, _, _ => rfl
  | _ :: _, [], _, h1, _ => by simp [charsLe] at h1
  | _ :: _, _ :: _, [], _, h2 => by simp [charsLe] at h2
  | a :: as, b :: bs, c :: cs, h1, h2 => by
    by_cases hab : a = b <;> by_cases hbc : b = c
    · subst hab
      subst hbc
      rw [charsLe, if_pos rfl] at h1 h2 ⊢
      exact charsLe_trans as bs cs h1 h2
    · subst hab
      rw [charsLe, if_neg hbc] at h2
      rw [charsLe, if_neg hbc]
      exact h2
    · subst hbc
      rw [charsLe, if_neg hab] at h1
      rw [charsLe, if_neg hab]
      exact h1
    · rw [charsLe, if_neg hab] at h1
      rw [charsLe, if_neg hbc] at h2
      have hac : a < c := lt_trans (of_decide_eq_true h1) (of_decide_eq_true h2)
      rw [charsLe, if_neg (ne_of_lt hac)]
      exact decide_eq_true hac

theorem strLe_total (a b : String) : strLe a b = true ∨ strLe b a = true :=
  charsLe_total a.data b.data

theorem strLe_trans (a b c : String) (h1 : strLe a b = true) (h2 : strLe b c = true) :
    strLe a c = true :=
  charsLe_trans a.data b.data c.data h1 h2

theorem valueStr_list_inj {ss tt : List String}
    (h : ss.map Value.str = tt.map Value.str) : ss = tt :=
  List.map_injective_iff.mpr (fun _ _ hab => Value.str.inj hab) h

theorem unmap_strs : ∀ ds : List Value, (∀ v ∈ ds, (getStrV v).isSome) →
    (ds.filterMap getStrV).map Value.str = ds
  | [], _ => rfl
  | v :: ds, h => by
    have hv := h v (List.mem_cons_self _ _)
    rcases v with _ | n | s | xs | fs
    · simp [getStrV] at hv
    · simp [getStrV] at hv
    · rw [List.filterMap_cons]
      have : getStrV (Value.str s) = some s := rfl
      rw [this, List.map_cons, unmap_strs ds (fun w hw => h w (List.mem_cons_of_mem _ hw))]
    · simp [getStrV] at hv
    · simp [getStrV] at hv

/-- The behaviour of `pySortedSet` on a list of string values: it returns
the distinct strings, sorted ascending by the lexicographic code-point
order, wrapped again as string values. -/
theorem pySortedSet_strings (vs : List Value) (hall : ∀ v ∈ vs, ∃ s, v = Value.str s) :
    ∃ l : List String, pySortedSet vs = some (l.map Value.str) ∧
      l.Sorted (fun a b => strLe a b = true) ∧ l.Nodup ∧
      ∀ s, s ∈ l ↔ Value.str s ∈ vs := by
  have hds : ∀ v ∈ vs.dedup, ∃ s, v = Value.str s :=
    fun v hv => hall v (List.mem_dedup.mp hv)
  have hisSome : ∀ v ∈ vs.dedup, (getStrV v).isSome := by
    intro v hv
    obtain ⟨s, hs⟩ := hds v hv
    rw [hs]
    rfl
  have hnd : vs.dedup.Nodup := List.nodup_dedup vs
  have hun : ((vs.dedup.filterMap getStrV).map Value.str) = vs.dedup :=
    unmap_strs vs.dedup hisSome
  have hstrs_nodup : (vs.dedup.filterMap getStrV).Nodup :=
    List.Nodup.of_map Value.str (by rw [hun]; exact hnd)
  have hmem : ∀ s, s ∈ vs.dedup.filterMap getStrV ↔ Value.str s ∈ vs := by
    intro s
    constructor
    · intro hs
      have : Value.str s ∈ (vs.dedup.filterMap getStrV).map Value.str :=
        List.mem_map_of_mem _ hs
      rw [hun] at this
      exact List.mem_dedup.mp this
    · intro hs
      have h1 : Value.str s ∈ vs.dedup := List.mem_dedup.mpr hs
      rw [← hun] at h1
      obtain ⟨t, ht, hte⟩ := List.mem_map.mp h1
      rw [← Value.str.inj hte]
      exact ht
  rw [pySortedSet]
  by_cases hlen : vs.dedup.length ≤ 1
  · rw [if_pos hlen]
    refine ⟨vs.dedup.filterMap getStrV, by rw [hun], ?_, hstrs_nodup, hmem⟩
    have hlen2 : (vs.dedup.filterMap getStrV).length ≤ 1 := by
      have : ((vs.dedup.filterMap getStrV).map Value.str).length = vs.dedup.length := by
        rw [hun]
      rw [List.length_map] at this
      rw [this]
      exact hlen
    rcases hcase : vs.dedup.filterMap getStrV with _ | ⟨s, _ | ⟨t, ts⟩⟩
    · exact List.sorted_nil
    · exact List.sorted_singleton s
    · rw [hcase] at hlen2
      simp at hlen2
  · rw [if_neg hlen]
    have hne : vs.dedup ≠ [] := by
      intro he
      rw [he] at hlen
      simp at hlen
    have hint : ¬ (vs.dedup.all (fun v => (getIntV v).isSome)) = true := by
      intro hc
      obtain ⟨v0, hv0⟩ := List.exists_mem_of_ne_nil vs.dedup hne
      obtain ⟨s, hs⟩ := hds v0 hv0
      have := List.all_eq_true.mp hc v0 hv0
      rw [hs] at this
      simp [getIntV] at this
    rw [if_neg hint]
    have hstr : vs.dedup.all (fun v => (getStrV v).isSome) = true :=
      List.all_eq_true.mpr (fun v hv => by
        have := hisSome v hv
        simpa using this)
    rw [if_pos hstr]
    haveI : IsTotal String (fun a b => strLe a b = true) := ⟨strLe_total⟩
    haveI : IsTrans String (fun a b => strLe a b = true) := ⟨strLe_trans⟩
    have hperm : (List.insertionSort (fun a b => strLe a b = true)
        (vs.dedup.filterMap getStrV)).Perm (vs.dedup.filterMap getStrV) :=
      List.perm_insertionSort _ _
    refine ⟨List.insertionSort (fun a b => strLe a b = true) (vs.dedup.filterMap getStrV),
      rfl, List.sorted_insertionSort _ _, hperm.nodup_iff.mpr hstrs_nodup, ?_⟩
    intro s
    rw [hperm.mem_iff]
    exact hmem s

/-! ## Collecting the day values -/

theorem all_hashable_strs : ∀ ss : List String, (ss.map Value.str).all pyHashable = true
  | [] => rfl
  | s :: ss => by
    rw [List.map_cons, List.all_cons, all_hashable_strs ss]
    rfl

theorem truthy_false_list_empty (xs : List Value)
    (h : pyTruthy (Value.list xs) = false) : xs = [] := by
  rw [pyTruthy] at h
  simp only [Bool.not_eq_false'] at h
  exact List.isEmpty_iff.mp h

theorem collectDays_good : ∀ c : Collection, (∀ pr ∈ c, goodDays pr.2) →
    ∃ vals : List String, collectDays c = some (vals.map Value.str) ∧
      ∀ s, s ∈ vals ↔ ∃ pr ∈ c, ∃ ss : List String,
        _get_nested_value pr.2 "schedule_details.days" = Value.list (ss.map Value.str) ∧
        s ∈ ss := by
  intro c
  induction c with
  | nil =>
    intro _
    exact ⟨[], rfl, by simp⟩
  | cons pr rest ih =>
    intro h
    obtain ⟨k, d⟩ := pr
    have hd : goodDays d := h (k, d) (List.mem_cons_self _ _)
    obtain ⟨tail, htail, hmemt⟩ := ih (fun pr hpr => h pr (List.mem_cons_of_mem _ hpr))
    by_cases ht : pyTruthy (_get_nested_value d "schedule_details.days") = true
    · have hss : ∃ ss : List String,
          _get_nested_value d "schedule_details.days" = Value.list (ss.map Value.str) := by
        rcases hd with hf | hss
        · rw [ht] at hf; cases hf
        · exact hss
      obtain ⟨ss, hv⟩ := hss
      refine ⟨ss ++ tail, ?_, ?_⟩
      · have hvv : (if pyTruthy (_get_nested_value d "schedule_details.days")
            then _get_nested_value d "schedule_details.days" else Value.list []) =
            Value.list (ss.map Value.str) := by rw [if_pos ht, hv]
        simp [collectDays, hvv, pyIter, all_hashable_strs, htail]
      · intro s
        rw [List.mem_append]
        constructor
        · rintro (hs | hs)
          · exact ⟨(k, d), List.mem_cons_self _ _, ss, hv, hs⟩
          · obtain ⟨pr, hpr, ss', hv', hs'⟩ := (hmemt s).mp hs
            exact ⟨pr, List.mem_cons_of_mem _ hpr, ss', hv', hs'⟩
        · rintro ⟨pr, hpr, ss', hv', hs'⟩
          rcases List.mem_cons.mp hpr with he | he
          · subst he
            rw [hv] at hv'
            rw [valueStr_list_inj (Value.list.inj hv')]
            exact Or.inl hs'
          · exact Or.inr ((hmemt s).mpr ⟨pr, he, ss', hv', hs'⟩)
    · have hf : pyTruthy (_get_nested_value d "schedule_details.days") = false :=
        Bool.eq_false_iff.mpr ht
      refine ⟨tail, ?_, ?_⟩
      · have hvv : (if pyTruthy (_get_nested_value d "schedule_details.days")
            then _get_nested_value d "schedule_details.days" else Value.list []) =
            Value.list [] := if_neg (by rw [hf]; exact Bool.false_ne_true)
        simp [collectDays, hvv, pyIter, htail]
      · intro s
        rw [hmemt s]
        constructor
        · rintro ⟨pr, hpr, ss', hv', hs'⟩
          exact ⟨pr, List.mem_cons_of_mem _ hpr, ss', hv', hs'⟩
        · rintro ⟨pr, hpr, ss', hv', hs'⟩
          rcases List.mem_cons.mp hpr with he | he
          · subst he
            rw [hv'] at hf
            have hnil : ss' = [] := List.map_eq_nil_iff.mp (truthy_false_list_empty _ hf)
            rw [hnil] at hs'
            cases hs'
          · exact ⟨pr, he, ss', hv', hs'⟩

/-! ## C6 -/

/-- C6 counterexample: the claim says documents where the path does not
resolve to an ordered sequence contribute no values and cause no error,
but a document whose `schedule_details.days` is a truthy non-iterable
value (the int 7) makes the aggregate loop raise TypeError (modelled as
`none`) instead of being skipped. -/
theorem claim6_counterexample :
    aggregate []
      [(Value.str "A",
        [("_id", Value.str "A"), ("schedule_details", Value.doc [("days", Value.int 7)])])] =
      none := by
  decide

/-- C6 amended: for every pipeline argument (accepted but ignored) and
every collection in which each document's value at
`schedule_details.days` is either falsy (absent, null, empty — those
contribute no values and cause no error) or a list of strings, the
grouping query yields exactly one record per distinct value found across
all the lists, sorted ascending by the code-point lexicographic order,
each record exposing the value under the `_id` field, each distinct
value appearing exactly once regardless of how many documents contain
it.  (A truthy value at the path that is not a sequence is not skipped:
it is iterated when iterable and raises a type error otherwise.) -/
theorem claim6_grouping (p : List Doc) (c : Collection)
    (h : ∀ pr ∈ c, goodDays pr.2) :
    ∃ l : List String,
      aggregate p c = some (l.map (fun s => [("_id", Value.str s)])) ∧
      l.Sorted (fun a b => strLe a b = true) ∧ l.Nodup ∧
      (∀ s, s ∈ l ↔ ∃ pr ∈ c, ∃ ss : List String,
        _get_nested_value pr.2 "schedule_details.days" = Value.list (ss.map Value.str) ∧
        s ∈ ss) := by
  obtain ⟨vals, hcoll, hmemv⟩ := collectDays_good c h
  obtain ⟨l, hsort, hsorted, hnodup, hmeml⟩ :=
    pySortedSet_strings (vals.map Value.str)
      (fun v hv => by
        obtain ⟨s, _, hs⟩ := List.mem_map.mp hv
        exact ⟨s, hs.symm⟩)
  refine ⟨l, ?_, hsorted, hnodup, ?_⟩
  · simp only [aggregate, hcoll, hsort, List.map_map]
    rfl
  · intro s
    rw [hmeml s]
    constructor
    · intro hs
      obtain ⟨t, ht, hte⟩ := List.mem_map.mp hs
      rw [← Value.str.inj hte]
      exact (hmemv t).mp ht
    · intro hs
      exact List.mem_map_of_mem Value.str ((hmemv s).mpr hs)

/-- Witness for C6's amended theorem on a one-document collection (the
Chess Club seed document, whose days are the strings Monday and
Friday). -/
theorem claim6_witness :
    (∀ pr ∈ ([(Value.str "Chess Club", chessClub)] : Collection), goodDays pr.2) ∧
    (∃ l : List String,
      aggregate [] [(Value.str "Chess Club", chessClub)] =
        some (l.map (fun s => [("_id", Value.str s)])) ∧
      l.Sorted (fun a b => strLe a b = true) ∧ l.Nodup ∧
      (∀ s, s ∈ l ↔ ∃ pr ∈ ([(Value.str "Chess Club", chessClub)] : Collection),
        ∃ ss : List String,
          _get_nested_value pr.2 "schedule_details.days" = Value.list (ss.map Value.str) ∧
          s ∈ ss)) :=
  have hg : ∀ pr ∈ ([(Value.str "Chess Club", chessClub)] : Collection), goodDays pr.2 := by
    intro pr hpr
    rw [List.mem_singleton] at hpr
    subst hpr
    exact Or.inr ⟨["Monday", "Friday"], by decide⟩
  ⟨hg, claim6_grouping [] [(Value.str "Chess Club", chessClub)] hg⟩

end MemDB
